import Mathlib

/-!
Verification development for the creator-feedback video-annotation app
(`src/index.tsx`).  The definitions below are a shallow embedding of the
data model and the operations of the source file: numbers are modelled as
rationals (`ℚ`) or integers, JavaScript records as Lean structures, the
mutable mock database as an explicit store value threaded through the
operations, and the browser's interval timers as an explicit scheduler
state.  Each claim about the program is stated and settled as a theorem
over these definitions.
-/

namespace CreatorFeedback

/-! ### Data model (`src/index.tsx`, Types & Schema section) -/

/-- `interface Point { x: number; y: number }` — normalized 0.0 to 1.0. -/
structure Point where
  x : ℚ
  y : ℚ
deriving DecidableEq

/-- `interface Stroke { color; width; points }`. -/
structure Stroke where
  color : String
  width : ℚ
  points : List Point
deriving DecidableEq

/-- `interface Comment` — id, author fields, text, video timestamp,
resolved flag, optional drawing data and creation time. -/
structure Comment where
  id : String
  authorId : String
  authorName : String
  text : String
  timestamp : ℚ
  resolved : Bool
  drawingData : Option (List Stroke)
  createdAt : Int
deriving DecidableEq

/-- A comment draft as passed to `DatabaseService.addComment`: a `Comment`
without the store-assigned `id` and `createdAt`. -/
structure CommentDraft where
  authorId : String
  authorName : String
  text : String
  timestamp : ℚ
  resolved : Bool
  drawingData : Option (List Stroke)
deriving DecidableEq

/-- `MOCK_DB.comments : Record<string, Comment[]>` — the comment table of
the mock database, keyed by project id; a missing key reads as `none`
(JavaScript `undefined`). -/
def Store : Type := String → Option (List Comment)

/-- The error taxonomy of the specification (§7).  The source operations
are embedded with codomain `Except DBError _` so that "fails with
`ValidationError` / `NotFoundError`" is statable; an operation that
returns normally is embedded as `Except.ok`. -/
inductive DBError where
  | validationError
  | notFoundError
deriving DecidableEq

/-! ### Geometry (`getNormPoint`, `drawStroke`) -/

/-- The `getBoundingClientRect()` data used by `getNormPoint`. -/
structure Rect where
  left : ℚ
  top : ℚ
  width : ℚ
  height : ℚ
deriving DecidableEq

/-- `getNormPoint` (src/index.tsx:315-321): normalize a client-coordinate
point against the canvas bounding rect:
`x = (e.clientX - rect.left) / rect.width`,
`y = (e.clientY - rect.top) / rect.height`. -/
def getNormPoint (clientX clientY : ℚ) (rect : Rect) : Point :=
  { x := (clientX - rect.left) / rect.width
    y := (clientY - rect.top) / rect.height }

/-- The denormalization performed by `drawStroke` (src/index.tsx:349-359)
when rendering: a normalized point is scaled to canvas-local device
coordinates `(p.x * width, p.y * height)`. -/
def denormalize (p : Point) (width height : ℚ) : Point :=
  { x := p.x * width, y := p.y * height }

/-! ### Timeline marker math (`ReviewPage`, src/index.tsx:674-681) -/

/-- The scrubber marker position of a comment as a fraction of the bar:
the source renders `left: ${(c.timestamp / (duration || 1)) * 100}%`, so
the fraction is `timestamp / (duration || 1)`, where JavaScript `||`
replaces a zero duration by `1`. -/
def markerPosition (timestamp duration : ℚ) : ℚ :=
  timestamp / (if duration = 0 then 1 else duration)

/-! ### Drawing capture engine (`WhiteboardOverlay`, src/index.tsx:305-379)

The overlay's reactive state is the pair `(isDrawing, currentPoints)`;
committed strokes are passed to `onDrawEnd`, which in `ReviewPage` appends
them to `currentDrawings`.  We record the sequence of `onDrawEnd` emissions
in the state.  The `isDrawing` prop is controlled from outside
(`setIsDrawingMode` in `ReviewPage`), embedded here as a `setDrawing`
event. -/

structure OverlayState where
  isDrawing : Bool
  currentPoints : List Point
  emitted : List Stroke
deriving DecidableEq

/-- The events driving `WhiteboardOverlay`: the three mouse handlers and a
change of the `isDrawing` prop.  (`onMouseLeave` reuses `handleMouseUp`, so
`up` covers it.) -/
inductive OverlayEvent where
  | down (p : Point)
  | move (p : Point)
  | up
  | setDrawing (b : Bool)
deriving DecidableEq

/-- One step of the overlay, translated handler by handler:
`handleMouseDown`: `if (!isDrawing) return; setCurrentPoints([getNormPoint(e)])`;
`handleMouseMove`: `if (!isDrawing || currentPoints.length === 0) return;`
append the point; `handleMouseUp`: `if (!isDrawing || currentPoints.length
=== 0) return; onDrawEnd({color:'#ef4444', width:4, points:currentPoints});
setCurrentPoints([])`.  A `setDrawing` event only overwrites the prop — the
source clears neither `currentPoints` nor anything else when drawing mode
is toggled. -/
def overlayStep (s : OverlayState) : OverlayEvent → OverlayState
  | .down p =>
      if !s.isDrawing then s
      else { s with currentPoints := [p] }
  | .move p =>
      if !s.isDrawing || s.currentPoints.length == 0 then s
      else { s with currentPoints := s.currentPoints ++ [p] }
  | .up =>
      if !s.isDrawing || s.currentPoints.length == 0 then s
      else { s with
               currentPoints := []
               emitted := s.emitted ++ [⟨"#ef4444", 4, s.currentPoints⟩] }
  | .setDrawing b => { s with isDrawing := b }

/-- Run the overlay over a sequence of events. -/
def runOverlay (s : OverlayState) : List OverlayEvent → OverlayState
  | [] => s
  | e :: es => runOverlay (overlayStep s e) es

/-! ### Annotation store operations (`DatabaseService`) -/

/-- The comment constructed by `addComment` (src/index.tsx:182-191):
`{ ...comment, id: `c_${Date.now()}`, createdAt: Date.now() }` with the
clock reading passed in explicitly as `now`. -/
def mkNewComment (d : CommentDraft) (now : Int) : Comment :=
  { id := "c_" ++ toString now
    authorId := d.authorId
    authorName := d.authorName
    text := d.text
    timestamp := d.timestamp
    resolved := d.resolved
    drawingData := d.drawingData
    createdAt := now }

/-- `DatabaseService.addComment` (src/index.tsx:182-191): creates the
comment list for the project if absent, appends the new comment, and
returns it.  The source performs no validation and has no failure path, so
every input maps to `Except.ok`. -/
def addComment (s : Store) (projectId : String) (d : CommentDraft)
    (now : Int) : Except DBError (Comment × Store) :=
  let c := mkNewComment d now
  let cs := (s projectId).getD []
  Except.ok (c, fun p => if p = projectId then some (cs ++ [c]) else s p)

/-- The in-place mutation of `resolveComment`: `comments.findIndex(c =>
c.id === commentId)` followed by `comments[idx].resolved = resolved` sets
the `resolved` field of the first comment whose id matches, leaving the
list otherwise unchanged. -/
def setResolvedFirst (commentId : String) (b : Bool) :
    List Comment → List Comment
  | [] => []
  | c :: cs =>
      if c.id = commentId then { c with resolved := b } :: cs
      else c :: setResolvedFirst commentId b cs

/-- `DatabaseService.resolveComment` (src/index.tsx:193-199): looks up the
project's comment list (`if (comments)`), finds the comment by id, and if
found flips its `resolved` field.  Every path returns normally (`Except.ok`
with the resulting store); a missing project or comment id is a silent
no-op. -/
def resolveComment (s : Store) (projectId commentId : String) (b : Bool) :
    Except DBError Store :=
  match s projectId with
  | none => Except.ok s
  | some cs =>
      Except.ok fun p =>
        if p = projectId then some (setResolvedFirst commentId b cs)
        else s p

/-- The stable insertion of one comment into a timestamp-sorted list:
placed before the first element whose timestamp is not smaller.  (Used to
model the stable `Array.prototype.sort` of `subscribeToComments`.) -/
def insertByTs (c : Comment) : List Comment → List Comment
  | [] => [c]
  | d :: ds =>
      if c.timestamp ≤ d.timestamp then c :: d :: ds
      else d :: insertByTs c ds

/-- `[...comments].sort((a, b) => a.timestamp - b.timestamp)`
(src/index.tsx:161): a stable sort of the project's comments by
`timestamp` only — the comparator never consults any other field, and ECMA
`Array.prototype.sort` is stable, so ties keep the array (insertion)
order. -/
def sortComments : List Comment → List Comment
  | [] => []
  | c :: cs => insertByTs c (sortComments cs)

/-! ### Sync channel (`subscribeToComments`, src/index.tsx:158-166)

`subscribeToComments` invokes `load()` once immediately, registers
`setInterval(load, 1000)`, and returns `() => clearInterval(interval)`.
We embed the browser timer discipline explicitly: `setInterval` allocates
a fresh timer id and marks it live; `clearInterval` removes the id (and is
a no-op when the id is not live); a live timer may fire at any later time,
a cleared one never fires again.  The system below tracks one project's
comment channel: the store contents, the live timer ids, the next fresh
id, and the log of callback deliveries `(timer id, delivered list)` in
order.  `load()` delivers the sorted comment list. -/

structure SyncSystem where
  nextId : Nat
  active : List Nat
  comments : List Comment
  deliveries : List (Nat × List Comment)
deriving DecidableEq

/-- Events of the comment sync channel: a new subscription (which fires
its initial `load()` and allocates its interval id), the unsubscribe
closure of subscription `i` (`clearInterval`), an interval firing for
subscription `i`, and a store mutation (an `addComment` push, which the
pollers observe on their next firing). -/
inductive SyncEvent where
  | subscribe
  | unsubscribe (i : Nat)
  | tick (i : Nat)
  | mutate (c : Comment)
deriving DecidableEq

/-- `clearInterval i`: the timer id is removed from the live set;
clearing an id that is not live changes nothing. -/
def clearTimer (i : Nat) (s : SyncSystem) : SyncSystem :=
  { s with active := s.active.filter (fun j => j ≠ i) }

/-- One step of the sync channel. -/
def syncStep (s : SyncSystem) : SyncEvent → SyncSystem
  | .subscribe =>
      { s with
          nextId := s.nextId + 1
          active := s.nextId :: s.active
          deliveries := s.deliveries ++ [(s.nextId, sortComments s.comments)] }
  | .unsubscribe i => clearTimer i s
  | .tick i =>
      if i ∈ s.active then
        { s with deliveries := s.deliveries ++ [(i, sortComments s.comments)] }
      else s
  | .mutate c => { s with comments := s.comments ++ [c] }

/-- Run the sync channel over a sequence of events. -/
def runSync (s : SyncSystem) : List SyncEvent → SyncSystem
  | [] => s
  | e :: es => runSync (syncStep s e) es

/-- Well-formedness of the scheduler state: every live timer id was
previously allocated.  Holds for the initial state (no timers) and is
preserved by every event. -/
def SyncWF (s : SyncSystem) : Prop :=
  ∀ j ∈ s.active, j < s.nextId

instance : DecidablePred SyncWF := fun s =>
  inferInstanceAs (Decidable (∀ j ∈ s.active, j < s.nextId))

/-! ### AI summarization (`AIService.summarizeFeedback`, src/index.tsx:210-245) -/

/-- The observable outcome of `summarizeFeedback` up to the point where it
either returns a string without contacting the AI service, or issues a
`generateContent` request built from the unresolved comments and the video
title (whose network result we do not model). -/
inductive SummarizeOutcome where
  | returned (msg : String)
  | request (unresolved : List Comment) (videoTitle : String)
deriving DecidableEq

/-- `AIService.summarizeFeedback`: `if (!AI_API_KEY) return "Configuration
Error: API_KEY is missing."`; then `unresolved = comments.filter(c =>
!c.resolved)`; `if (unresolved.length === 0) return "All feedback
resolved! Good job."`; otherwise the prompt is built from `unresolved` and
the title and sent to the external model.  (JavaScript `!s` on a string is
true exactly for the empty string.) -/
def summarizeFeedback (apiKey : String) (comments : List Comment)
    (videoTitle : String) : SummarizeOutcome :=
  if apiKey = "" then .returned "Configuration Error: API_KEY is missing."
  else
    let unresolved := comments.filter (fun c => !c.resolved)
    if unresolved.length = 0 then .returned "All feedback resolved! Good job."
    else .request unresolved videoTitle

/-! ### Concrete sample values (used by counterexamples and witnesses) -/

/-- A sample normalized point. -/
def pA : Point := ⟨1/5, 2/5⟩

/-- A second sample normalized point. -/
def pB : Point := ⟨3/10, 2/5⟩

/-- The empty store (no projects). -/
def emptyStore : Store := fun _ => none

/-- A sample committed comment, shaped like the demo comment `c1` of
`MOCK_DB`. -/
def cDemo : Comment :=
  { id := "c1", authorId := "client_guest", authorName := "Client A"
    text := "Can we make the grass greener here?", timestamp := 26/5
    resolved := false
    drawingData := some [⟨"#ef4444", 4, [pA, pB, ⟨3/10, 1/2⟩]⟩]
    createdAt := 100 }

/-- A store holding one project `proj_1` with the single demo comment. -/
def demoStore : Store :=
  fun p => if p = "proj_1" then some [cDemo] else none

/-! ## Claims -/

/-! ### C7 — coordinate round-trip -/

/-- C7: for every Point with coordinates in `[0,1]` and every
non-degenerate rect (positive width and height), normalizing the
denormalized point — with target dimensions equal to the rect's — returns
the original point.  Over the exact rational model the round-trip is an
identity, hence in particular within floating-point tolerance. -/
theorem normalize_denormalize_roundtrip (p : Point) (r : Rect)
    (hx0 : 0 ≤ p.x) (hx1 : p.x ≤ 1) (hy0 : 0 ≤ p.y) (hy1 : p.y ≤ 1)
    (hw : 0 < r.width) (hh : 0 < r.height) :
    getNormPoint (r.left + (denormalize p r.width r.height).x)
      (r.top + (denormalize p r.width r.height).y) r = p := by
  have hw' : r.width ≠ 0 := ne_of_gt hw
  have hh' : r.height ≠ 0 := ne_of_gt hh
  cases p with
  | mk x y =>
    simp only [getNormPoint, denormalize, Point.mk.injEq]
    constructor
    · rw [div_eq_iff hw']; ring
    · rw [div_eq_iff hh']; ring

/-- Witness for C7 at `p = (1/2, 1/3)` and the rect `(10, 20, 200, 100)`. -/
theorem normalize_denormalize_roundtrip_witness :
    getNormPoint ((10:ℚ) + (denormalize ⟨1/2, 1/3⟩ 200 100).x)
      ((20:ℚ) + (denormalize ⟨1/2, 1/3⟩ 200 100).y) ⟨10, 20, 200, 100⟩
      = ⟨1/2, 1/3⟩ :=
  normalize_denormalize_roundtrip ⟨1/2, 1/3⟩ ⟨10, 20, 200, 100⟩
    (by norm_num) (by norm_num) (by norm_num) (by norm_num)
    (by norm_num) (by norm_num)

/-! ### C2 — marker position -/

/-- Counterexample to C2: the source applies no clamp, so a negative
timestamp yields a negative position and a timestamp beyond the duration
yields a position above 1. -/
theorem markerPosition_escapes_range :
    markerPosition (-1) 10 < 0 ∧ 1 < markerPosition 20 10 := by
  constructor <;> norm_num [markerPosition]

/-- C2 (amended): the marker position is `timestamp / duration` with a
zero duration collapsed to 1, so no division by the literal zero occurs;
the quotient is *not* clamped — it lies in `[0,1]` when the timestamp lies
in `[0, duration]` (positive duration), but escapes that range for
out-of-range timestamps. -/
theorem markerPosition_spec (t d : ℚ) :
    (if d = 0 then (1:ℚ) else d) ≠ 0 ∧
    (d = 0 → markerPosition t d = t) ∧
    (0 ≤ t → t ≤ d → d ≠ 0 →
      0 ≤ markerPosition t d ∧ markerPosition t d ≤ 1) := by
  refine ⟨?_, ?_, ?_⟩
  · by_cases h : d = 0 <;> simp [h]
  · intro h; simp [markerPosition, h]
  · intro ht htd hd
    have hd0 : 0 < d := lt_of_le_of_ne (le_trans ht htd) (Ne.symm hd)
    have hpos : markerPosition t d = t / d := by simp [markerPosition, hd]
    rw [hpos]
    exact ⟨div_nonneg ht (le_of_lt hd0), (div_le_one hd0).mpr htd⟩

/-- Witness for C2 at the spec's own scenario: `timestamp = 5.2`,
`duration = 596`. -/
theorem markerPosition_spec_witness :
    0 ≤ markerPosition (26/5) 596 ∧ markerPosition (26/5) 596 ≤ 1 :=
  (markerPosition_spec (26/5) 596).2.2 (by norm_num) (by norm_num) (by norm_num)

/-! ### C1 — gesture commit -/

/-- With drawing enabled and a non-empty capture buffer, a run of `move`
events followed by `up` appends the moved points and then commits exactly
one stroke holding the whole buffer. -/
theorem runOverlay_moves_then_up (ps : List Point) :
    ∀ s : OverlayState, s.isDrawing = true → s.currentPoints ≠ [] →
      runOverlay s (ps.map OverlayEvent.move ++ [OverlayEvent.up]) =
        ⟨true, [], s.emitted ++ [⟨"#ef4444", 4, s.currentPoints ++ ps⟩]⟩ := by
  induction ps with
  | nil =>
      intro s hd hne
      cases s with
      | mk isD cp em =>
        simp only at hd hne
        subst hd
        have hlen : (cp.length == 0) = false := by
          simp only [beq_eq_false_iff_ne, ne_eq, List.length_eq_zero]
          exact hne
        simp [runOverlay, overlayStep, hlen]
  | cons q qs ih =>
      intro s hd hne
      cases s with
      | mk isD cp em =>
        simp only at hd hne
        subst hd
        have hlen : (cp.length == 0) = false := by
          simp only [beq_eq_false_iff_ne, ne_eq, List.length_eq_zero]
          exact hne
        have hstep :
            overlayStep ⟨true, cp, em⟩ (OverlayEvent.move q)
              = ⟨true, cp ++ [q], em⟩ := by
          simp [overlayStep, hlen]
        show runOverlay (overlayStep ⟨true, cp, em⟩ (OverlayEvent.move q))
            (qs.map OverlayEvent.move ++ [OverlayEvent.up]) = _
        rw [hstep, ih ⟨true, cp ++ [q], em⟩ rfl (by simp)]
        simp

/-- Counterexample to C1: with drawing enabled, a mouse-down immediately
followed by mouse-up — a gesture accumulating exactly one point — commits
a one-point stroke (`handleMouseUp` only rejects an *empty* buffer). -/
theorem single_point_gesture_commits :
    (runOverlay ⟨true, [], []⟩
      [OverlayEvent.down pA, OverlayEvent.up]).emitted
      = [⟨"#ef4444", 4, [pA]⟩] := rfl

/-- C1 (amended): with drawing enabled, a capture gesture accumulating at
least one point (mouse-down, any number of moves, mouse-up) yields exactly
one committed stroke whose points are the captured points in capture
order; a gesture that accumulated no points (mouse-up on an empty buffer)
emits nothing. -/
theorem gesture_emission (s : OverlayState) (p : Point) (ps : List Point)
    (hd : s.isDrawing = true) :
    (runOverlay s (OverlayEvent.down p ::
        (ps.map OverlayEvent.move ++ [OverlayEvent.up]))).emitted
      = s.emitted ++ [⟨"#ef4444", 4, p :: ps⟩] ∧
    (s.currentPoints = [] →
      (overlayStep s OverlayEvent.up).emitted = s.emitted) := by
  constructor
  · have hstep : overlayStep s (OverlayEvent.down p)
        = { s with currentPoints := [p] } := by
      simp [overlayStep, hd]
    show (runOverlay (overlayStep s (OverlayEvent.down p))
        (ps.map OverlayEvent.move ++ [OverlayEvent.up])).emitted = _
    rw [hstep, runOverlay_moves_then_up ps _ (by simp [hd]) (by simp)]
    simp
  · intro hcp
    simp [overlayStep, hcp]

/-- Witness for C1 at the two-point gesture `down pA, move pB, up`. -/
theorem gesture_emission_witness :
    (runOverlay ⟨true, [], []⟩
      [OverlayEvent.down pA, OverlayEvent.move pB, OverlayEvent.up]).emitted
      = [⟨"#ef4444", 4, [pA, pB]⟩] := by
  have h := (gesture_emission ⟨true, [], []⟩ pA [pB] rfl).1
  simpa using h

/-! ### C6 — disable while capturing -/

/-- While drawing mode is off and is never switched back on, no event
changes the emitted strokes (and the mode stays off). -/
theorem runOverlay_disabled (evs : List OverlayEvent) :
    ∀ s : OverlayState, s.isDrawing = false →
      (∀ e ∈ evs, e ≠ OverlayEvent.setDrawing true) →
      (runOverlay s evs).isDrawing = false ∧
      (runOverlay s evs).emitted = s.emitted := by
  induction evs with
  | nil => intro s h _; exact ⟨h, rfl⟩
  | cons e es ih =>
      intro s h hno
      have hstep : (overlayStep s e).isDrawing = false ∧
          (overlayStep s e).emitted = s.emitted := by
        cases e with
        | down p => simp [overlayStep, h]
        | move p => simp [overlayStep, h]
        | up => simp [overlayStep, h]
        | setDrawing b =>
            have hb : b = false := by
              have hmem := hno (OverlayEvent.setDrawing b) (List.mem_cons_self _ _)
              cases b with
              | false => rfl
              | true => exact absurd rfl hmem
            subst hb
            simp [overlayStep]
      have hrest := ih (overlayStep s e) hstep.1
        (fun e2 he2 => hno e2 (List.mem_cons_of_mem _ he2))
      exact ⟨hrest.1, hrest.2.trans hstep.2⟩

/-- Counterexample to C6: disabling drawing mode mid-gesture does not
discard the buffer — the source never clears `currentPoints` on the
toggle — so re-enabling drawing mode and releasing the pointer emits the
pre-disable points as a committed stroke. -/
theorem disable_reenable_emits_stale :
    (runOverlay ⟨true, [], []⟩
      [OverlayEvent.down pA, OverlayEvent.move pB,
       OverlayEvent.setDrawing false, OverlayEvent.setDrawing true,
       OverlayEvent.up]).emitted = [⟨"#ef4444", 4, [pA, pB]⟩] := rfl

/-- C6 (amended): after drawing mode is disabled mid-gesture, the
in-progress points are never emitted *as long as drawing mode stays
disabled*; but the buffer is retained rather than discarded, and once
drawing mode is re-enabled a mouse-up (with no intervening mouse-down)
emits the retained points as a committed stroke. -/
theorem drawing_disable_behavior (s : OverlayState) (evs : List OverlayEvent)
    (hno : ∀ e ∈ evs, e ≠ OverlayEvent.setDrawing true) :
    (runOverlay (overlayStep s (OverlayEvent.setDrawing false)) evs).emitted
      = s.emitted ∧
    (s.currentPoints ≠ [] →
      (runOverlay (overlayStep s (OverlayEvent.setDrawing false))
        [OverlayEvent.setDrawing true, OverlayEvent.up]).emitted
        = s.emitted ++ [⟨"#ef4444", 4, s.currentPoints⟩]) := by
  constructor
  · have h := runOverlay_disabled evs
      (overlayStep s (OverlayEvent.setDrawing false)) (by simp [overlayStep]) hno
    exact h.2.trans (by simp [overlayStep])
  · intro hne
    cases s with
    | mk isD cp em =>
      simp only at hne
      have hlen : (cp.length == 0) = false := by
        simp only [beq_eq_false_iff_ne, ne_eq, List.length_eq_zero]
        exact hne
      simp [runOverlay, overlayStep, hlen]

/-- Witness for C6: a two-point buffer survives the disable; it is not
emitted by a mouse-up while disabled, and leaks on re-enable plus
mouse-up. -/
theorem drawing_disable_behavior_witness :
    (runOverlay (overlayStep ⟨true, [pA, pB], []⟩ (OverlayEvent.setDrawing false))
        [OverlayEvent.up]).emitted = [] ∧
    (runOverlay (overlayStep ⟨true, [pA, pB], []⟩ (OverlayEvent.setDrawing false))
        [OverlayEvent.setDrawing true, OverlayEvent.up]).emitted
      = [⟨"#ef4444", 4, [pA, pB]⟩] := by
  have h := drawing_disable_behavior ⟨true, [pA, pB], []⟩
    [OverlayEvent.up] (by decide)
  exact ⟨h.1, by simpa using h.2 (by decide)⟩

/-! ### C10 — summarization early returns -/

/-- C10: with an empty API key `summarizeFeedback` returns the
configuration-error string (pre-empting everything else); with a non-empty
key and every comment resolved it returns the fixed success string without
issuing a request to the AI service. -/
theorem summarizeFeedback_early_returns (apiKey : String)
    (comments : List Comment) (title : String) :
    (apiKey = "" →
      summarizeFeedback apiKey comments title =
        SummarizeOutcome.returned "Configuration Error: API_KEY is missing.") ∧
    (apiKey ≠ "" → (∀ c ∈ comments, c.resolved = true) →
      summarizeFeedback apiKey comments title =
        SummarizeOutcome.returned "All feedback resolved! Good job.") := by
  constructor
  · intro h; simp [summarizeFeedback, h]
  · intro h hall
    have hfilter : comments.filter (fun c => !c.resolved) = [] := by
      rw [List.filter_eq_nil_iff]
      intro c hc
      simp [hall c hc]
    simp [summarizeFeedback, h, hfilter]

/-- Witness for C10: both early returns at concrete inputs. -/
theorem summarizeFeedback_early_returns_witness :
    summarizeFeedback "" [cDemo] "Demo" =
      SummarizeOutcome.returned "Configuration Error: API_KEY is missing." ∧
    summarizeFeedback "key" [{ cDemo with resolved := true }] "Demo" =
      SummarizeOutcome.returned "All feedback resolved! Good job." :=
  ⟨(summarizeFeedback_early_returns "" [cDemo] "Demo").1 rfl,
   (summarizeFeedback_early_returns "key" [{ cDemo with resolved := true }]
      "Demo").2 (by decide) (by decide)⟩

/-! ### C3 — delivered ordering -/

/-- `insertByTs` produces a permutation of consing the element. -/
theorem insertByTs_perm (c : Comment) (l : List Comment) :
    List.Perm (insertByTs c l) (c :: l) := by
  induction l with
  | nil => simp [insertByTs]
  | cons d ds ih =>
      by_cases h : c.timestamp ≤ d.timestamp
      · simp [insertByTs, h]
      · simp only [insertByTs, if_neg h]
        exact (List.Perm.cons d ih).trans (List.Perm.swap c d ds)

/-- `insertByTs` preserves timestamp-sortedness. -/
theorem insertByTs_sorted (c : Comment) (l : List Comment)
    (h : l.Pairwise (fun a b => a.timestamp ≤ b.timestamp)) :
    (insertByTs c l).Pairwise (fun a b => a.timestamp ≤ b.timestamp) := by
  induction l with
  | nil => simp [insertByTs]
  | cons d ds ih =>
      rcases List.pairwise_cons.mp h with ⟨hd, hds⟩
      by_cases hc : c.timestamp ≤ d.timestamp
      · simp only [insertByTs, if_pos hc]
        refine List.pairwise_cons.mpr ⟨?_, h⟩
        intro x hx
        rcases List.mem_cons.mp hx with rfl | hx
        · exact hc
        · exact le_trans hc (hd x hx)
      · simp only [insertByTs, if_neg hc]
        refine List.pairwise_cons.mpr ⟨?_, ih hds⟩
        intro x hx
        have hx2 : x ∈ c :: ds := (insertByTs_perm c ds).mem_iff.mp hx
        rcases List.mem_cons.mp hx2 with rfl | hx2
        · exact le_of_not_le hc
        · exact hd x hx2

/-- Filtering by an exact timestamp commutes with `insertByTs`: the
insertion point lies strictly after everything with a smaller timestamp,
so the subsequence at any fixed timestamp is just consed. -/
theorem filter_insertByTs (t : ℚ) (c : Comment) (l : List Comment) :
    (insertByTs c l).filter (fun d => d.timestamp == t) =
      ((c :: l).filter (fun d => d.timestamp == t)) := by
  induction l with
  | nil => rfl
  | cons d ds ih =>
      by_cases hc : c.timestamp ≤ d.timestamp
      · simp [insertByTs, hc]
      · simp only [insertByTs, if_neg hc]
        by_cases hct : (c.timestamp == t) = true
        · have hceq : c.timestamp = t := by simpa using hct
          have hdt : (d.timestamp == t) = false := by
            simp only [beq_eq_false_iff_ne, ne_eq]
            intro hdeq
            exact hc (le_of_eq (hceq.trans hdeq.symm))
          rw [List.filter_cons, List.filter_cons, hdt, ih,
            List.filter_cons, List.filter_cons, hdt]
          simp
        · have hcf : (c.timestamp == t) = false := by
            simp only [Bool.not_eq_true] at hct
            exact hct
          have key2 : (insertByTs c ds).filter (fun d => d.timestamp == t)
              = ds.filter (fun d => d.timestamp == t) := by
            rw [ih, List.filter_cons, hcf]
            simp
          rw [List.filter_cons, List.filter_cons, key2, List.filter_cons, hcf]
          simp

/-- `sortComments` is a permutation of the input. -/
theorem sortComments_perm (l : List Comment) :
    List.Perm (sortComments l) l := by
  induction l with
  | nil => simp [sortComments]
  | cons c cs ih =>
      exact (insertByTs_perm c (sortComments cs)).trans (List.Perm.cons c ih)

/-- `sortComments` output is nondecreasing in `timestamp`. -/
theorem sortComments_sorted (l : List Comment) :
    (sortComments l).Pairwise (fun a b => a.timestamp ≤ b.timestamp) := by
  induction l with
  | nil => simp [sortComments]
  | cons c cs ih => exact insertByTs_sorted c (sortComments cs) ih

/-- `sortComments` is stable: the subsequence at any fixed timestamp
equals the input's subsequence at that timestamp. -/
theorem sortComments_filter (t : ℚ) (l : List Comment) :
    (sortComments l).filter (fun d => d.timestamp == t) =
      l.filter (fun d => d.timestamp == t) := by
  induction l with
  | nil => rfl
  | cons c cs ih =>
      show (insertByTs c (sortComments cs)).filter (fun d => d.timestamp == t) = _
      rw [filter_insertByTs, List.filter_cons, List.filter_cons, ih]

/-- Two comments with equal timestamps but decreasing `createdAt`, in
store (insertion) order. -/
def cTieA : Comment := { cDemo with id := "cA", createdAt := 100 }

/-- The later-inserted tie partner with the smaller `createdAt`. -/
def cTieB : Comment := { cDemo with id := "cB", createdAt := 50 }

/-- Counterexample to C3: the comparator of `subscribeToComments` consults
only `timestamp`, and the stable sort keeps ties in store order — here the
delivered order at the shared timestamp has `createdAt` 100 before 50,
i.e. the tie is *not* broken by `createdAt` ascending. -/
theorem sortComments_ignores_createdAt :
    sortComments [cTieA, cTieB] = [cTieA, cTieB] ∧
    cTieA.timestamp = cTieB.timestamp ∧
    cTieB.createdAt < cTieA.createdAt := by
  refine ⟨?_, rfl, ?_⟩
  · have h1 : sortComments [cTieA, cTieB] = insertByTs cTieA [cTieB] := rfl
    rw [h1]
    show (if cTieA.timestamp ≤ cTieB.timestamp
        then cTieA :: [cTieB] else cTieB :: insertByTs cTieA []) = _
    rw [if_pos (show cTieA.timestamp ≤ cTieB.timestamp from le_refl cTieA.timestamp)]
  · show (50 : Int) < 100
    norm_num

/-- C3 (amended): the sequence delivered to subscribers is a permutation
of the stored comments, sorted by `timestamp` ascending, with ties kept in
the store's insertion order (the sort is stable and deterministic) — not
reordered by `createdAt`. -/
theorem sortComments_spec (l : List Comment) (t : ℚ) :
    List.Perm (sortComments l) l ∧
    (sortComments l).Pairwise (fun a b => a.timestamp ≤ b.timestamp) ∧
    (sortComments l).filter (fun d => d.timestamp == t) =
      l.filter (fun d => d.timestamp == t) :=
  ⟨sortComments_perm l, sortComments_sorted l, sortComments_filter t l⟩

/-! ### C4 — addComment does not validate -/

/-- A draft violating both validation rules of the spec: whitespace-free
empty text and a one-point stroke. -/
def badDraft : CommentDraft :=
  { authorId := "guest", authorName := "Guest Client", text := ""
    timestamp := 1, resolved := false
    drawingData := some [⟨"#ef4444", 4, [pA]⟩] }

/-- Counterexample to C4: `addComment` accepts the invalid draft — it does
not fail with `ValidationError`, and the stored collection changes (the
comment is appended under the project). -/
theorem addComment_accepts_invalid :
    addComment emptyStore "proj_1" badDraft 5
      ≠ Except.error DBError.validationError ∧
    (match addComment emptyStore "proj_1" badDraft 5 with
      | Except.ok (_, s2) => s2 "proj_1"
      | Except.error _ => none) = some [mkNewComment badDraft 5] ∧
    emptyStore "proj_1" = none := by
  refine ⟨?_, rfl, rfl⟩
  intro h
  exact Except.noConfusion h

/-- C4 (amended): the store's `addComment` performs no validation at all:
for every draft — empty or whitespace-only text and degenerate strokes
included — it returns `ok` with the new comment (id derived from the
clock, `createdAt` assigned) appended to the project's list, leaving every
other project unchanged.  (Only the UI submit handler guards empty text,
by silently not calling the store.) -/
theorem addComment_no_validation (s : Store) (pid : String)
    (d : CommentDraft) (now : Int) :
    (∀ e : DBError, addComment s pid d now ≠ Except.error e) ∧
    (∀ c s2, addComment s pid d now = Except.ok (c, s2) →
      c = mkNewComment d now ∧
      s2 pid = some ((s pid).getD [] ++ [c]) ∧
      ∀ p, p ≠ pid → s2 p = s p) := by
  constructor
  · intro e h
    exact Except.noConfusion h
  · intro c s2 h
    simp only [addComment, Except.ok.injEq, Prod.mk.injEq] at h
    obtain ⟨hc, hs⟩ := h
    subst hc
    subst hs
    refine ⟨rfl, by simp, ?_⟩
    intro p hp
    simp [if_neg hp]

/-- Witness for C4: the store call with the invalid draft, applied
concretely. -/
theorem addComment_no_validation_witness :
    addComment emptyStore "proj_1" badDraft 5
      ≠ Except.error DBError.notFoundError :=
  (addComment_no_validation emptyStore "proj_1" badDraft 5).1
    DBError.notFoundError

/-! ### C5 — resolve of a missing comment -/

/-- `setResolvedFirst` is the identity when no comment has the id. -/
theorem setResolvedFirst_of_not_mem (cid : String) (b : Bool)
    (cs : List Comment) (h : ∀ c ∈ cs, c.id ≠ cid) :
    setResolvedFirst cid b cs = cs := by
  induction cs with
  | nil => rfl
  | cons c cs ih =>
      have hc : ¬ c.id = cid := h c (List.mem_cons_self _ _)
      simp only [setResolvedFirst, if_neg hc]
      rw [ih (fun c2 hc2 => h c2 (List.mem_cons_of_mem _ hc2))]

/-- Counterexample to C5: resolving a comment id that does not exist under
the project returns `ok` — not `NotFoundError` — and leaves the stored
comments unchanged. -/
theorem resolveComment_missing_returns_ok :
    resolveComment demoStore "proj_1" "c_missing" true
      ≠ Except.error DBError.notFoundError ∧
    (match resolveComment demoStore "proj_1" "c_missing" true with
      | Except.ok s2 => s2 "proj_1"
      | Except.error _ => none) = some [cDemo] := by
  refine ⟨?_, rfl⟩
  intro h
  exact Except.noConfusion h

/-- C5 (amended): when the comment id is absent under the project (or the
project itself is absent), `resolveComment` is a silent no-op: it never
returns an error, and the resulting store is pointwise unchanged. -/
theorem resolveComment_missing_silent (s : Store) (pid cid : String)
    (b : Bool)
    (hmiss : ∀ cs, s pid = some cs → ∀ c ∈ cs, c.id ≠ cid) :
    (∀ e : DBError, resolveComment s pid cid b ≠ Except.error e) ∧
    (∀ s2, resolveComment s pid cid b = Except.ok s2 → ∀ p, s2 p = s p) := by
  cases h0 : s pid with
  | none =>
      constructor
      · intro e h
        simp only [resolveComment, h0] at h
        exact Except.noConfusion h
      · intro s2 h
        simp only [resolveComment, h0, Except.ok.injEq] at h
        subst h
        intro p
        rfl
  | some cs =>
      have hid := setResolvedFirst_of_not_mem cid b cs (hmiss cs h0)
      constructor
      · intro e h
        simp only [resolveComment, h0] at h
        exact Except.noConfusion h
      · intro s2 h
        simp only [resolveComment, h0, Except.ok.injEq] at h
        subst h
        intro p
        by_cases hp : p = pid
        · subst hp
          simp [if_pos rfl, hid, h0]
        · simp [if_neg hp]

/-- Witness for C5 at the demo store and an absent comment id. -/
theorem resolveComment_missing_silent_witness :
    resolveComment demoStore "proj_1" "c_missing" true
      ≠ Except.error DBError.validationError := by
  have h := resolveComment_missing_silent demoStore "proj_1" "c_missing" true
    (by
      intro cs hcs c hc
      have hcs2 : cs = [cDemo] := by
        simpa [demoStore] using hcs.symm
      subst hcs2
      rcases List.mem_singleton.mp hc with rfl
      decide)
  exact h.1 DBError.validationError

/-! ### C8 — resolve touches only the resolved flag -/

/-- Pointwise shape of `setResolvedFirst`: each output comment is either
the input comment unchanged, or — only when its id matches — the input
comment with just `resolved` overwritten. -/
theorem setResolvedFirst_forall2 (cid : String) (b : Bool)
    (cs : List Comment) :
    List.Forall₂
      (fun c c2 => c2 = c ∨ (c.id = cid ∧ c2 = { c with resolved := b }))
      cs (setResolvedFirst cid b cs) := by
  induction cs with
  | nil => exact List.Forall₂.nil
  | cons c cs ih =>
      by_cases h : c.id = cid
      · simp only [setResolvedFirst, if_pos h]
        refine List.Forall₂.cons (Or.inr ⟨h, rfl⟩) ?_
        exact List.forall₂_same.mpr (fun x _ => Or.inl rfl)
      · simp only [setResolvedFirst, if_neg h]
        exact List.Forall₂.cons (Or.inl rfl) ih

/-- C8: `resolveComment` changes at most the `resolved` field of the
(first) comment with the given id: every other project is untouched, the
project's list keeps its length and order, and each comment is either
byte-identical or differs from the original only in `resolved`. -/
theorem resolveComment_frame (s : Store) (pid cid : String) (b : Bool) :
    ∀ s2, resolveComment s pid cid b = Except.ok s2 →
      (∀ p, p ≠ pid → s2 p = s p) ∧
      (s pid = none → s2 pid = none) ∧
      (∀ cs, s pid = some cs →
        s2 pid = some (setResolvedFirst cid b cs) ∧
        List.Forall₂
          (fun c c2 => c2 = c ∨ (c.id = cid ∧ c2 = { c with resolved := b }))
          cs (setResolvedFirst cid b cs)) := by
  intro s2 h
  cases h0 : s pid with
  | none =>
      simp only [resolveComment, h0, Except.ok.injEq] at h
      subst h
      refine ⟨fun p _ => rfl, fun _ => h0, ?_⟩
      intro cs hcs
      exact Option.noConfusion hcs
  | some cs =>
      simp only [resolveComment, h0, Except.ok.injEq] at h
      subst h
      refine ⟨?_, ?_, ?_⟩
      · intro p hp
        show (if p = pid then some (setResolvedFirst cid b cs) else s p) = s p
        rw [if_neg hp]
      · intro hnone
        exact Option.noConfusion hnone
      · intro cs2 hcs2
        injection hcs2 with he
        subst he
        refine ⟨?_, setResolvedFirst_forall2 cid b cs⟩
        show (if pid = pid then some (setResolvedFirst cid b cs) else s pid)
          = some (setResolvedFirst cid b cs)
        rw [if_pos rfl]

/-- Witness for C8: resolving the demo comment flips exactly its
`resolved` flag and leaves other projects untouched. -/
theorem resolveComment_frame_witness :
    setResolvedFirst "c1" true [cDemo] = [{ cDemo with resolved := true }] ∧
    (fun p => if p = "proj_1"
        then some (setResolvedFirst "c1" true [cDemo])
        else demoStore p) "other" = demoStore "other" := by
  have h := resolveComment_frame demoStore "proj_1" "c1" true
    (fun p => if p = "proj_1"
        then some (setResolvedFirst "c1" true [cDemo])
        else demoStore p) rfl
  refine ⟨rfl, h.1 "other" (by decide)⟩

/-! ### C9 — unsubscribe contract -/

/-- Once a timer id is dead (not live, and below the allocation counter),
no event revives it: `clearInterval` only removes ids, new subscriptions
get fresh ids, and ticks do not touch the live set. -/
theorem syncStep_dead_stays_dead (i : Nat) (s : SyncSystem) (e : SyncEvent)
    (h1 : i ∉ s.active) (h2 : i < s.nextId) :
    i ∉ (syncStep s e).active ∧ i < (syncStep s e).nextId := by
  cases e with
  | subscribe =>
      constructor
      · intro hmem
        rcases List.mem_cons.mp hmem with h | h
        · exact absurd h (Nat.ne_of_lt h2)
        · exact h1 h
      · exact Nat.lt_succ_of_lt h2
  | unsubscribe j =>
      refine ⟨?_, h2⟩
      intro hmem
      exact h1 (List.mem_of_mem_filter hmem)
  | tick j =>
      by_cases hj : j ∈ s.active
      · simpa [syncStep, hj] using And.intro h1 h2
      · simpa [syncStep, hj] using And.intro h1 h2
  | mutate c => exact ⟨h1, h2⟩

/-- A step from a state where timer `i` is dead adds no delivery addressed
to `i`: initial deliveries go to the freshly allocated id, tick deliveries
go to live ids only. -/
theorem syncStep_deliveries_avoid_dead (i : Nat) (s : SyncSystem)
    (e : SyncEvent) (h1 : i ∉ s.active) (h2 : i < s.nextId) :
    ∀ d ∈ (syncStep s e).deliveries, d ∈ s.deliveries ∨ d.1 ≠ i := by
  cases e with
  | subscribe =>
      intro d hd
      rcases List.mem_append.mp hd with h | h
      · exact Or.inl h
      · rcases List.mem_singleton.mp h with rfl
        exact Or.inr (Ne.symm (Nat.ne_of_lt h2))
  | unsubscribe j => intro d hd; exact Or.inl hd
  | tick j =>
      by_cases hj : j ∈ s.active
      · intro d hd
        simp only [syncStep, if_pos hj] at hd
        rcases List.mem_append.mp hd with h | h
        · exact Or.inl h
        · rcases List.mem_singleton.mp h with rfl
          refine Or.inr ?_
          show j ≠ i
          intro hji
          subst hji
          exact h1 hj
      · intro d hd
        simp only [syncStep, if_neg hj] at hd
        exact Or.inl hd
  | mutate c => intro d hd; exact Or.inl hd

/-- Along any event sequence started from a state where timer `i` is dead,
every delivery either predates the start or is addressed to a different
subscriber. -/
theorem runSync_no_delivery_to_dead (i : Nat) (evs : List SyncEvent) :
    ∀ s : SyncSystem, i ∉ s.active → i < s.nextId →
      ∀ d ∈ (runSync s evs).deliveries, d ∈ s.deliveries ∨ d.1 ≠ i := by
  induction evs with
  | nil => intro s _ _ d hd; exact Or.inl hd
  | cons e es ih =>
      intro s h1 h2 d hd
      obtain ⟨h1b, h2b⟩ := syncStep_dead_stays_dead i s e h1 h2
      rcases ih (syncStep s e) h1b h2b d hd with h | h
      · exact syncStep_deliveries_avoid_dead i s e h1 h2 d h
      · exact Or.inr h

/-- Simulation relation between a run and the same run after
`clearInterval i`: identical allocation counter and store, the live set
merely misses `i`, and the delivery logs agree on everything not addressed
to `i`. -/
def SyncSim (i : Nat) (s s2 : SyncSystem) : Prop :=
  s2.nextId = s.nextId ∧ s2.comments = s.comments ∧
  s2.active = s.active.filter (fun j => j ≠ i) ∧
  s2.deliveries.filter (fun d => d.1 ≠ i) =
    s.deliveries.filter (fun d => d.1 ≠ i)

/-- Every event preserves the simulation relation (and the allocation
bound on `i`). -/
theorem syncStep_sim (i : Nat) (s s2 : SyncSystem) (e : SyncEvent)
    (hlt : i < s.nextId) (hsim : SyncSim i s s2) :
    i < (syncStep s e).nextId ∧ SyncSim i (syncStep s e) (syncStep s2 e) := by
  obtain ⟨hn, hc, ha, hd⟩ := hsim
  cases e with
  | subscribe =>
      have hne : s.nextId ≠ i := Ne.symm (Nat.ne_of_lt hlt)
      refine ⟨Nat.lt_succ_of_lt hlt, ?_, ?_, ?_, ?_⟩
      · show s2.nextId + 1 = s.nextId + 1
        rw [hn]
      · exact hc
      · show s2.nextId :: s2.active
          = (s.nextId :: s.active).filter (fun j => j ≠ i)
        simp [List.filter_cons, hne, ha, hn]
      · show (s2.deliveries ++ [(s2.nextId, sortComments s2.comments)]).filter _
          = (s.deliveries ++ [(s.nextId, sortComments s.comments)]).filter _
        rw [List.filter_append, List.filter_append, hd, hc, hn]
  | unsubscribe j =>
      refine ⟨hlt, hn, hc, ?_, hd⟩
      show s2.active.filter (fun k => k ≠ j)
        = (s.active.filter (fun k => k ≠ j)).filter (fun k => k ≠ i)
      rw [ha, List.filter_filter, List.filter_filter]
      congr 1
      funext a
      rw [Bool.and_comm]
  | tick j =>
      by_cases hj : j ∈ s.active
      · by_cases hji : j = i
        · subst hji
          have hj2 : j ∉ s2.active := by
            rw [ha]
            simp [List.mem_filter]
          simp only [syncStep, if_pos hj, if_neg hj2]
          refine ⟨hlt, hn, hc, ha, ?_⟩
          rw [List.filter_append, hd]
          simp
        · have hj2 : j ∈ s2.active := by
            rw [ha]
            simp [List.mem_filter, hj, hji]
          simp only [syncStep, if_pos hj, if_pos hj2]
          refine ⟨hlt, hn, hc, ha, ?_⟩
          rw [List.filter_append, List.filter_append, hd, hc]
      · have hj2 : j ∉ s2.active := by
          rw [ha]
          simp [List.mem_filter, hj]
        simp only [syncStep, if_neg hj, if_neg hj2]
        exact ⟨hlt, hn, hc, ha, hd⟩
  | mutate c =>
      refine ⟨hlt, hn, ?_, ha, hd⟩
      show s2.comments ++ [c] = s.comments ++ [c]
      rw [hc]

/-- The simulation relation is preserved along whole event sequences. -/
theorem runSync_sim (i : Nat) (evs : List SyncEvent) :
    ∀ s s2, i < s.nextId → SyncSim i s s2 →
      i < (runSync s evs).nextId ∧
      SyncSim i (runSync s evs) (runSync s2 evs) := by
  induction evs with
  | nil => intro s s2 h hsim; exact ⟨h, hsim⟩
  | cons e es ih =>
      intro s s2 h hsim
      obtain ⟨h2, hsim2⟩ := syncStep_sim i s s2 e h hsim
      exact ih (syncStep s e) (syncStep s2 e) h2 hsim2

/-- C9: the unsubscribe closure (`clearInterval` on the subscription's
interval id) is idempotent; after it returns, no continuation of the run
delivers anything to that subscriber (every delivery addressed to it
predates the unsubscribe); and the deliveries to every other subscriber
are exactly those of the same run without the unsubscribe. -/
theorem unsubscribe_contract (s : SyncSystem) (i : Nat)
    (evs : List SyncEvent) (hi : i < s.nextId) :
    clearTimer i (clearTimer i s) = clearTimer i s ∧
    (∀ d ∈ (runSync (clearTimer i s) evs).deliveries,
      d.1 = i → d ∈ s.deliveries) ∧
    (runSync (clearTimer i s) evs).deliveries.filter (fun d => d.1 ≠ i) =
      (runSync s evs).deliveries.filter (fun d => d.1 ≠ i) := by
  refine ⟨?_, ?_, ?_⟩
  · have hf : ∀ l : List Nat,
        (l.filter (fun j => j ≠ i)).filter (fun j => j ≠ i)
          = l.filter (fun j => j ≠ i) :=
      fun l => List.filter_eq_self.mpr (fun x hx => (List.mem_filter.mp hx).2)
    cases s with
    | mk n a cm dl => simp [clearTimer, hf]
  · intro d hd hdi
    have h1 : i ∉ (clearTimer i s).active := by
      simp [clearTimer, List.mem_filter]
    rcases runSync_no_delivery_to_dead i evs (clearTimer i s) h1 hi d hd with h | h
    · exact h
    · exact absurd hdi h
  · have hsim : SyncSim i s (clearTimer i s) := ⟨rfl, rfl, rfl, rfl⟩
    exact (runSync_sim i evs s (clearTimer i s) hi hsim).2.2.2.2

/-- A concrete sync state with two live subscriptions (ids 0 and 1). -/
def sys0 : SyncSystem := ⟨2, [0, 1], [cDemo], []⟩

/-- Witness for C9: unsubscribing id 0 on a two-subscriber system, then
ticking both timers. -/
theorem unsubscribe_contract_witness :
    clearTimer 0 (clearTimer 0 sys0) = clearTimer 0 sys0 ∧
    (runSync (clearTimer 0 sys0)
        [SyncEvent.tick 0, SyncEvent.tick 1]).deliveries.filter
        (fun d => d.1 ≠ 0) =
      (runSync sys0 [SyncEvent.tick 0, SyncEvent.tick 1]).deliveries.filter
        (fun d => d.1 ≠ 0) := by
  have h := unsubscribe_contract sys0 0
    [SyncEvent.tick 0, SyncEvent.tick 1] (by decide)
  exact ⟨h.1, h.2.2⟩

end CreatorFeedback
